import Mathlib

/-!
Verification development for the react-safe-fiber instrumentation pipeline
(`src/scan/index.ts`, `src/extract/index.ts`, `src/index.ts`).

The TypeScript sources are shallowly embedded below: rectangle geometry and
the blueprint aggregator are pure functions; the fiber visitor is a recursive
tree traversal; the module-level mutable state of `src/scan/index.ts`
(canvas, listeners, inspect mode, cleanup flags) is an explicit state record
with state-passing operations.  Numeric coordinates are modelled by `ℚ`
(the JS numbers involved are only compared, added and subtracted here).
-/

namespace SafeFiber

/-! ## Geometry (`mergeRects`, src/scan/index.ts lines 167-193) -/

/-- A DOMRect as used by the scanner: origin plus extent. -/
structure Rect where
  x : ℚ
  y : ℚ
  width : ℚ
  height : ℚ
deriving Repr, DecidableEq

/-- The loop body of `mergeRects` for inputs of length ≥ 1: the first
rectangle seeds `minX`/`minY`/`maxX`/`maxY` (the `== null` initialization
branch of the first iteration) and the remaining rectangles are folded with
`Math.min`/`Math.max`; the result is
`new DOMRect(minX, minY, maxX - minX, maxY - minY)`.  The
`rects.length === 1` short-circuit returns the first rectangle itself. -/
def mergeRectsCore (r : Rect) (rs : List Rect) : Rect :=
  match rs with
  | [] => r
  | _ :: _ =>
    let minX := rs.foldl (fun m q => min m q.x) r.x
    let minY := rs.foldl (fun m q => min m q.y) r.y
    let maxX := rs.foldl (fun m q => max m (q.x + q.width)) (r.x + r.width)
    let maxY := rs.foldl (fun m q => max m (q.y + q.height)) (r.y + r.height)
    ⟨minX, minY, maxX - minX, maxY - minY⟩

/-- `mergeRects` (src/scan/index.ts lines 167-193).  On the empty list the
JS function returns `rects[0]`, i.e. `undefined`, modelled as `none`. -/
def mergeRects (rects : List Rect) : Option Rect :=
  match rects with
  | [] => none
  | r :: rs => some (mergeRectsCore r rs)

/-- Left edge of a rectangle. -/
def Rect.left (r : Rect) : ℚ := r.x

/-- Right edge of a rectangle. -/
def Rect.right (r : Rect) : ℚ := r.x + r.width

/-- Top edge of a rectangle. -/
def Rect.top (r : Rect) : ℚ := r.y

/-- Bottom edge of a rectangle. -/
def Rect.bottom (r : Rect) : ℚ := r.y + r.height

/-! Fold lemmas used to characterise the min/max accumulation. -/

theorem foldl_min_le_init (f : Rect → ℚ) (a : ℚ) (rs : List Rect) :
    rs.foldl (fun m q => min m (f q)) a ≤ a := by
  induction rs generalizing a with
  | nil => simp
  | cons r rs ih =>
    calc (r :: rs).foldl (fun m q => min m (f q)) a
        = rs.foldl (fun m q => min m (f q)) (min a (f r)) := rfl
      _ ≤ min a (f r) := ih _
      _ ≤ a := min_le_left _ _

theorem foldl_min_le_mem (f : Rect → ℚ) (a : ℚ) (rs : List Rect) :
    ∀ q ∈ rs, rs.foldl (fun m p => min m (f p)) a ≤ f q := by
  induction rs generalizing a with
  | nil => intro q hq; simp at hq
  | cons r rs ih =>
    intro q hq
    rcases List.mem_cons.mp hq with h | h
    · subst h
      calc (q :: rs).foldl (fun m p => min m (f p)) a
          = rs.foldl (fun m p => min m (f p)) (min a (f q)) := rfl
        _ ≤ min a (f q) := foldl_min_le_init f _ rs
        _ ≤ f q := min_le_right _ _
    · exact ih (min a (f r)) q h

theorem foldl_min_attained (f : Rect → ℚ) (a : ℚ) (rs : List Rect) :
    rs.foldl (fun m q => min m (f q)) a = a ∨
      ∃ q ∈ rs, rs.foldl (fun m p => min m (f p)) a = f q := by
  induction rs generalizing a with
  | nil => left; rfl
  | cons r rs ih =>
    have hstep : (r :: rs).foldl (fun m q => min m (f q)) a
        = rs.foldl (fun m q => min m (f q)) (min a (f r)) := rfl
    rcases ih (min a (f r)) with h | ⟨q, hq, hqe⟩
    · rcases min_cases a (f r) with ⟨hmin, _⟩ | ⟨hmin, _⟩
      · left; rw [hstep, h, hmin]
      · right
        exact ⟨r, List.mem_cons_self r rs, by rw [hstep, h, hmin]⟩
    · right
      exact ⟨q, List.mem_cons_of_mem r hq, by rw [hstep, hqe]⟩

theorem foldl_max_init_le (f : Rect → ℚ) (a : ℚ) (rs : List Rect) :
    a ≤ rs.foldl (fun m q => max m (f q)) a := by
  induction rs generalizing a with
  | nil => simp
  | cons r rs ih =>
    calc a ≤ max a (f r) := le_max_left _ _
      _ ≤ rs.foldl (fun m q => max m (f q)) (max a (f r)) := ih _
      _ = (r :: rs).foldl (fun m q => max m (f q)) a := rfl

theorem foldl_max_mem_le (f : Rect → ℚ) (a : ℚ) (rs : List Rect) :
    ∀ q ∈ rs, f q ≤ rs.foldl (fun m p => max m (f p)) a := by
  induction rs generalizing a with
  | nil => intro q hq; simp at hq
  | cons r rs ih =>
    intro q hq
    rcases List.mem_cons.mp hq with h | h
    · subst h
      calc f q ≤ max a (f q) := le_max_right _ _
        _ ≤ rs.foldl (fun m p => max m (f p)) (max a (f q)) :=
            foldl_max_init_le f _ rs
        _ = (q :: rs).foldl (fun m p => max m (f p)) a := rfl
    · exact ih (max a (f r)) q h

theorem foldl_max_attained (f : Rect → ℚ) (a : ℚ) (rs : List Rect) :
    rs.foldl (fun m q => max m (f q)) a = a ∨
      ∃ q ∈ rs, rs.foldl (fun m p => max m (f p)) a = f q := by
  induction rs generalizing a with
  | nil => left; rfl
  | cons r rs ih =>
    have hstep : (r :: rs).foldl (fun m q => max m (f q)) a
        = rs.foldl (fun m q => max m (f q)) (max a (f r)) := rfl
    rcases ih (max a (f r)) with h | ⟨q, hq, hqe⟩
    · rcases max_cases a (f r) with ⟨hmax, _⟩ | ⟨hmax, _⟩
      · left; rw [hstep, h, hmax]
      · right
        exact ⟨r, List.mem_cons_self r rs, by rw [hstep, h, hmax]⟩
    · right
      exact ⟨q, List.mem_cons_of_mem r hq, by rw [hstep, hqe]⟩

/-! Projections of the merge result in the length ≥ 2 case. -/

theorem mergeRectsCore_cons_x (r p : Rect) (ps : List Rect) :
    (mergeRectsCore r (p :: ps)).x = (p :: ps).foldl (fun m q => min m q.x) r.x := rfl

theorem mergeRectsCore_cons_y (r p : Rect) (ps : List Rect) :
    (mergeRectsCore r (p :: ps)).y = (p :: ps).foldl (fun m q => min m q.y) r.y := rfl

theorem mergeRectsCore_cons_right (r p : Rect) (ps : List Rect) :
    (mergeRectsCore r (p :: ps)).right
      = (p :: ps).foldl (fun m q => max m (q.x + q.width)) (r.x + r.width) := by
  show (p :: ps).foldl (fun m q => min m q.x) r.x
      + ((p :: ps).foldl (fun m q => max m (q.x + q.width)) (r.x + r.width)
        - (p :: ps).foldl (fun m q => min m q.x) r.x) = _
  ring

theorem mergeRectsCore_cons_bottom (r p : Rect) (ps : List Rect) :
    (mergeRectsCore r (p :: ps)).bottom
      = (p :: ps).foldl (fun m q => max m (q.y + q.height)) (r.y + r.height) := by
  show (p :: ps).foldl (fun m q => min m q.y) r.y
      + ((p :: ps).foldl (fun m q => max m (q.y + q.height)) (r.y + r.height)
        - (p :: ps).foldl (fun m q => min m q.y) r.y) = _
  ring

/-- Every input rectangle is contained in the merge result. -/
theorem mergeRectsCore_contains (r : Rect) (rs : List Rect) :
    ∀ q ∈ r :: rs,
      (mergeRectsCore r rs).left ≤ q.left ∧
      (mergeRectsCore r rs).top ≤ q.top ∧
      q.right ≤ (mergeRectsCore r rs).right ∧
      q.bottom ≤ (mergeRectsCore r rs).bottom := by
  intro q hq
  cases rs with
  | nil =>
    rcases List.mem_cons.mp hq with h | h
    · subst h
      exact ⟨le_refl _, le_refl _, le_refl _, le_refl _⟩
    · simp at h
  | cons p ps =>
    simp only [Rect.left, Rect.top]
    rw [mergeRectsCore_cons_x, mergeRectsCore_cons_y,
      mergeRectsCore_cons_right, mergeRectsCore_cons_bottom]
    rcases List.mem_cons.mp hq with h | h
    · subst h
      exact ⟨foldl_min_le_init _ _ _, foldl_min_le_init _ _ _,
        foldl_max_init_le (fun p => p.x + p.width) _ _,
        foldl_max_init_le (fun p => p.y + p.height) _ _⟩
    · exact ⟨foldl_min_le_mem _ _ _ q h, foldl_min_le_mem _ _ _ q h,
        foldl_max_mem_le (fun p => p.x + p.width) _ _ q h,
        foldl_max_mem_le (fun p => p.y + p.height) _ _ q h⟩

/-- Each edge of the merge result is attained by some input rectangle. -/
theorem mergeRectsCore_tight (r : Rect) (rs : List Rect) :
    (∃ q ∈ r :: rs, (mergeRectsCore r rs).left = q.left) ∧
    (∃ q ∈ r :: rs, (mergeRectsCore r rs).top = q.top) ∧
    (∃ q ∈ r :: rs, (mergeRectsCore r rs).right = q.right) ∧
    (∃ q ∈ r :: rs, (mergeRectsCore r rs).bottom = q.bottom) := by
  cases rs with
  | nil =>
    exact ⟨⟨r, List.mem_cons_self _ _, rfl⟩, ⟨r, List.mem_cons_self _ _, rfl⟩,
      ⟨r, List.mem_cons_self _ _, rfl⟩, ⟨r, List.mem_cons_self _ _, rfl⟩⟩
  | cons p ps =>
    simp only [Rect.left, Rect.top]
    rw [mergeRectsCore_cons_x, mergeRectsCore_cons_y,
      mergeRectsCore_cons_right, mergeRectsCore_cons_bottom]
    refine ⟨?_, ?_, ?_, ?_⟩
    · rcases foldl_min_attained (fun q => q.x) r.x (p :: ps) with h | ⟨q, hq, hqe⟩
      · exact ⟨r, List.mem_cons_self _ _, h⟩
      · exact ⟨q, List.mem_cons_of_mem r hq, hqe⟩
    · rcases foldl_min_attained (fun q => q.y) r.y (p :: ps) with h | ⟨q, hq, hqe⟩
      · exact ⟨r, List.mem_cons_self _ _, h⟩
      · exact ⟨q, List.mem_cons_of_mem r hq, hqe⟩
    · rcases foldl_max_attained (fun q => q.x + q.width) (r.x + r.width) (p :: ps)
        with h | ⟨q, hq, hqe⟩
      · exact ⟨r, List.mem_cons_self _ _, h⟩
      · exact ⟨q, List.mem_cons_of_mem r hq, hqe⟩
    · rcases foldl_max_attained (fun q => q.y + q.height) (r.y + r.height) (p :: ps)
        with h | ⟨q, hq, hqe⟩
      · exact ⟨r, List.mem_cons_self _ _, h⟩
      · exact ⟨q, List.mem_cons_of_mem r hq, hqe⟩

/-! ## Fiber model and display-name resolution
(`getType`/`getDisplayName`, src/index.ts lines 616-636; `isCompositeFiber`,
preact-core `typeof vnode.type === 'function'`) -/

/-- A JS value sitting in a fiber's `type` slot: a function (carrying its
`displayName` and `name` properties, absent modelled as `none`), a wrapper
object whose `.type`/`.render` chain is the inner value (memo / forwardRef,
with `nullv` for an absent inner value), a string (host tag), or any other
primitive. -/
inductive JSType where
  | fnVal (displayName fnName : Option String)
  | objVal (inner : JSType)
  | strVal (s : String)
  | nullv
deriving Repr, DecidableEq

/-- JS `a || b` on string-or-null values: the empty string is falsy. -/
def jsOrName (a b : Option String) : Option String :=
  match a with
  | some s => if s.isEmpty then (match b with
      | some t => if t.isEmpty then none else some t
      | none => none) else some s
  | none => match b with
      | some t => if t.isEmpty then none else some t
      | none => none

/-- `getType` (src/index.ts lines 616-625): functions are returned as-is,
wrapper objects are unwrapped through `.type || .render`, everything else
resolves to `null`. -/
def getType : JSType → Option JSType
  | .fnVal d n => some (.fnVal d n)
  | .objVal inner => getType inner
  | .strVal _ => none
  | .nullv => none

/-- `displayName || name || null` on a function or wrapper value. -/
def ownNames : JSType → Option String
  | .fnVal d n => jsOrName d n
  | _ => none

/-- `getDisplayName` (src/index.ts lines 627-636) applied to a function or
object value `t`: return `t.displayName || t.name` if truthy, else resolve
`getType t` and read its `displayName || name`; `null` for primitives. -/
def getDisplayName (t : JSType) : Option String :=
  match t with
  | .strVal _ => none
  | .nullv => none
  | _ =>
    match ownNames t with
    | some s => some s
    | none =>
      match getType t with
      | some t2 => ownNames t2
      | none => none

/-- A fiber as consumed by the aggregator.  `id` models the object identity
used as the `WeakMap` key (`getFiberId` is modelled from the spec: «an
identity stable across re-renders of the same logical component»).
`hostElements` models the `stateNode` handles of `getNearestHostFibers`
(modelled from the spec: «the set of nearest descendant host-element
handles») and `committed` models `didFiberCommit` (modelled from the spec:
«whether this render phase is a "commit" (finalized paint) vs.
speculative») — those three helpers live outside `src/` and enter the
embedding as attributes of the fiber value. -/
structure Fiber where
  id : Nat
  type : JSType
  hostElements : List Nat
  committed : Bool
deriving Repr, DecidableEq

/-- `isCompositeFiber` (re-exported from preact-core, src/unnamed/part_000
lines 73-75): `typeof vnode.type === 'function'`. -/
def isCompositeFiber (f : Fiber) : Bool :=
  match f.type with
  | .fnVal _ _ => true
  | _ => false

/-- The name expression of `outlineFiber` (src/scan/index.ts line 147-148):
`typeof fiber.type === "string" ? fiber.type : getDisplayName(fiber)`.
`getDisplayName` receives the fiber object itself: the fiber has no own
`displayName`/`name` properties and its `.type || .render` chain reaches
`fiber.type`, so the call behaves as resolution through `fiber.type`. -/
def outlineName (f : Fiber) : Option String :=
  match f.type with
  | .strVal s => some s
  | t => getDisplayName (.objVal t)

/-- JS truthiness of the `name` value (`if (!name) return;`): `null` and the
empty string are falsy. -/
def truthyName : Option String → Option String
  | some s => if s.isEmpty then none else some s
  | none => none

/-! ## Blueprint aggregator (`outlineFiber`, src/scan/index.ts lines 145-165) -/

/-- `BlueprintOutline` (src/scan/types.ts): `didCommit` is stored as the
number `1` or `0`. -/
structure Blueprint where
  name : String
  count : Nat
  elements : List Nat
  didCommit : Nat
deriving Repr, DecidableEq

/-- The pair `blueprintMap` / `blueprintMapKeys`: an insertion-ordered
association from fiber identity to its blueprint (the `WeakMap` carries the
values; the `Set` records insertion order; both are updated together, so one
ordered association list models the pair). -/
abbrev AggState := List (Nat × Blueprint)

/-- `blueprintMap.get(fiber)`. -/
def lookupBP (s : AggState) (i : Nat) : Option Blueprint :=
  match s with
  | [] => none
  | (k, b) :: t => if k = i then some b else lookupBP t i

/-- In-place `blueprint.count++` on the entry keyed `i`. -/
def bumpCount (s : AggState) (i : Nat) : AggState :=
  match s with
  | [] => []
  | (k, b) :: t =>
    if k = i then (k, { b with count := b.count + 1 }) :: t
    else (k, b) :: bumpCount t i

/-- `outlineFiber` (src/scan/index.ts lines 145-165): skip non-composite
fibers; skip when the resolved name is falsy; create a blueprint with
`count = 1` on first sight (appending the fiber to `blueprintMapKeys`),
otherwise increment `count`. -/
def outlineFiber (f : Fiber) (s : AggState) : AggState :=
  if !isCompositeFiber f then s
  else
    match truthyName (outlineName f) with
    | none => s
    | some name =>
      match lookupBP s f.id with
      | none =>
        s ++ [(f.id, { name := name, count := 1, elements := f.hostElements,
                       didCommit := if f.committed then 1 else 0 })]
      | some _ => bumpCount s f.id

/-- Number of blueprint entries stored for a given fiber identity. -/
def countKey (s : AggState) (i : Nat) : Nat :=
  (s.filter (fun p => p.1 = i)).length

/-! ## The fiber visitor (`createFiberVisitor`, src/scan/index.ts lines
638-685).  Only the React-fiber branch is modelled (`isFiber` true: nodes
linked through `child`/`sibling`); `nil` is a `null` link. -/

/-- A fiber tree addressed by `child`/`sibling` links. -/
inductive FTree where
  | nil
  | node (id : Nat) (child sibling : FTree)
deriving Repr, DecidableEq

/-- The ids `mountFiber(firstChild, traverseSiblings)` invokes `onRender`
on, in invocation order: visit the node, recurse into its child with
`traverseSiblings = true`, then continue with the sibling only when
`traverseSiblings` holds. -/
def mountFiberVisits : FTree → Bool → List Nat
  | .nil, _ => []
  | .node i c s, ts =>
    i :: (mountFiberVisits c true ++ if ts then mountFiberVisits s true else [])

/-- `mountFiber` when `onRender` may throw (`onR i = some e` means the
callback threw `e` at node `i`): returns the ids on which `onRender` was
invoked, in order, together with the first error; a JS exception propagates
out of the recursion, so traversal stops at the throwing node. -/
def mountFiberRun (onR : Nat → Option String) : FTree → Bool → List Nat × Option String
  | .nil, _ => ([], none)
  | .node i c s, ts =>
    match onR i with
    | some e => ([i], some e)
    | none =>
      match mountFiberRun onR c true with
      | (v1, some e) => (i :: v1, some e)
      | (v1, none) =>
        if ts then
          match mountFiberRun onR s true with
          | (v2, e2) => (i :: (v1 ++ v2), e2)
        else (i :: v1, none)

/-- The argument of one commit notification: `root.current` plus whether
`root.current.alternate === null` (true exactly on the first commit of this
root after attach). -/
structure FiberRoot where
  current : FTree
  alternateIsNull : Bool
deriving Repr, DecidableEq

/-- Outcome of one call of the visitor returned by `createFiberVisitor`:
the ids `onRender` was invoked on, the error forwarded to `onError` (when a
handler was supplied), and the error rethrown to the caller (when not). -/
structure VisitResult where
  visited : List Nat
  forwarded : Option String
  thrown : Option String
deriving Repr, DecidableEq

/-- The guarded traversal of the visitor body (src/scan/index.ts lines
645-684): compute `wasMounted = !isFiber(rootFiber) ||
rootFiber.alternate === null` (the fiber branch: `alternate === null`) and
run `mountFiber(rootFiber, false)` only when `!wasMounted`.  The `try` of
the visitor wraps this whole traversal; its `catch` forwards the error to
`onError` when a handler was supplied and rethrows otherwise. -/
def visitorRun (onR : Nat → Option String) (root : FiberRoot) :
    List Nat × Option String :=
  if !root.alternateIsNull then mountFiberRun onR root.current false
  else ([], none)

/-- The full visitor call: run the guarded traversal and dispatch any error
through the `catch` clause. -/
def runVisitor (hasOnError : Bool) (onR : Nat → Option String)
    (root : FiberRoot) : VisitResult :=
  match visitorRun onR root with
  | (vs, none) => ⟨vs, none, none⟩
  | (vs, some e) => if hasOnError then ⟨vs, some e, none⟩ else ⟨vs, none, some e⟩

/-- The ids the visitor would reach when no callback throws. -/
def visitorReach (root : FiberRoot) : List Nat :=
  if !root.alternateIsNull then mountFiberVisits root.current false else []

/-! ## Rect resolver (`getRectMap`, src/scan/index.ts lines 195-218) -/

/-- One `IntersectionObserverEntry` for an observed element: whether it
intersects the viewport and its `boundingClientRect`. -/
structure ElemEntry where
  isIntersecting : Bool
  rect : Rect
deriving Repr, DecidableEq

/-- `Map.set` on an association list: replace the binding if the key is
present, append otherwise. -/
def mapSet (m : List (Nat × Rect)) (e : Nat) (r : Rect) : List (Nat × Rect) :=
  match m with
  | [] => [(e, r)]
  | (k, v) :: t => if k = e then (e, r) :: t else (k, v) :: mapSet t e r

/-- Association-list lookup (`Map.get`). -/
def mapGet (m : List (Nat × Rect)) (e : Nat) : Option Rect :=
  match m with
  | [] => none
  | (k, v) :: t => if k = e then some v else mapGet t e

/-- `getRectMap` (src/scan/index.ts lines 195-218), with the observer's
asynchronous callback made explicit: `observe` gives the entry delivered for
each element; an element is recorded only when
`entry.isIntersecting && rect.width && rect.height` (JS truthiness: a
number is truthy iff nonzero). -/
def getRectMap (observe : Nat → ElemEntry) (elements : List Nat) :
    List (Nat × Rect) :=
  elements.foldl
    (fun m e =>
      let en := observe e
      if en.isIntersecting ∧ en.rect.width ≠ 0 ∧ en.rect.height ≠ 0 then
        mapSet m e en.rect
      else m)
    []

/-! ## Flush (`flushOutlines`, src/scan/index.ts lines 223-308) -/

/-- One flushed outline: the blueprint, its merged rectangle and its fiber
id (`getFiberId(fiber)`). -/
structure FlushItem where
  bp : Blueprint
  rect : Rect
  id : Nat
deriving Repr, DecidableEq

/-- The per-blueprint step of the flush loop (src/scan/index.ts lines
240-256): resolve each element through the rect map, drop the blueprint when
no element resolved (`if (!rects.length) continue;`), otherwise keep it with
`mergeRects(rects)`. -/
def flushEntry (rectsMap : List (Nat × Rect)) (i : Nat) (b : Blueprint) :
    Option FlushItem :=
  match b.elements.filterMap (fun e => mapGet rectsMap e) with
  | [] => none
  | r :: rs => some ⟨b, mergeRectsCore r rs, i⟩

/-- All pending blueprint elements, in key order (the first loop of
`flushOutlines`, lines 226-232). -/
def pendingElements (s : AggState) : List Nat :=
  (s.map (fun p => p.2.elements)).flatten

/-- `flushOutlines` up to geometry resolution: compute the rect map over
all pending elements, then filter/merge per blueprint.  (Every processed
entry is deleted from the maps; the surviving ones are returned in
insertion order as the parallel arrays `blueprints`/`blueprintRects`/
`blueprintIds`.) -/
def flushCollect (observe : Nat → ElemEntry) (s : AggState) : List FlushItem :=
  let rectsMap := getRectMap observe (pendingElements s)
  s.filterMap (fun p => flushEntry rectsMap p.1 p.2)

/-! ## Worker serialization (`flushOutlines` worker branch, src/scan/index.ts
lines 258-301) -/

/-- Modelled from the spec: `OUTLINE_ARRAY_SIZE` is imported from
`./canvas.js`, which is not part of the sources; the spec fixes the stride
(«a flat 32-bit-float array, stride = 7 fields per outline») and
`InlineOutlineData` in src/scan/types.ts declares exactly the 7-tuple
`[id, count, x, y, width, height, didCommit]`. -/
def OUTLINE_ARRAY_SIZE : Nat := 7

/-- The seven 32-bit-float slots written for one outline at
`scaledIndex = i * OUTLINE_ARRAY_SIZE` (lines 272-279):
`[id, count, x, y, width, height, didCommit]`.  (Float32 quantisation is
abstracted: the slots carry the written numbers as rationals.) -/
def outlineRecord (it : FlushItem) : List ℚ :=
  [(it.id : ℚ), (it.bp.count : ℚ), it.rect.x, it.rect.y,
   it.rect.width, it.rect.height, (it.bp.didCommit : ℚ)]

/-- The flat buffer sent with the `draw-outlines` message. -/
def flushBuffer (items : List FlushItem) : List ℚ :=
  (items.map outlineRecord).flatten

/-- The parallel `names` array (`blueprintNames[i] = name`, line 280). -/
def flushNames (items : List FlushItem) : List String :=
  items.map (fun it => it.bp.name)

/-! ## Module state of src/scan/index.ts (canvas, listeners, inspect mode,
cleanup).  Event listeners are booleans: DOM `addEventListener` with the
same listener and capture flag is idempotent, so registration state is a
set, and each listener here is a named flag. -/

/-- The module-level mutable state touched by `getCanvasEl`,
`toggleInspectMode`, `cleanup` and `stop`.  `animationFrameId` is `none`
when no animation-frame callback is pending.  `outlines` are the
`activeOutlines` values restricted to their `frame` counters (keyed by
outline id), the only outline field `toggleInspectMode` touches. -/
structure SysState where
  canvasInit : Bool
  inspectActive : Bool
  docMouseover : Bool
  docClick : Bool
  winResize : Bool
  winScroll : Bool
  winKeydown : Bool
  intervalActive : Bool
  animationFrameId : Option Nat
  hostPresent : Bool
  hasCleanedUp : Bool
  stopped : Bool
  outlines : List (Nat × Nat)
deriving Repr, DecidableEq

/-- `toggleInspectMode` (src/scan/index.ts lines 76-93): no-op without a
canvas; `isActive = enable ?? !isActive`; when active, reset every
outline's `frame` to 0 and register the capture-phase `mouseover`/`click`
listeners on `document`; when inactive, remove them. -/
def toggleInspectMode (enable : Option Bool) (s : SysState) : SysState :=
  if !s.canvasInit then s
  else
    let active := enable.getD (!s.inspectActive)
    if active then
      { s with inspectActive := active,
               outlines := s.outlines.map (fun p => (p.1, 0)),
               docMouseover := true, docClick := true }
    else
      { s with inspectActive := active,
               docMouseover := false, docClick := false }

/-- The state effects of `getCanvasEl` (src/scan/index.ts lines 338-464) in
the main-thread path: the canvas is created and stored, the `resize`,
`scroll` and `keydown` listeners are registered on `window`, the flush
interval is started and the host element is attached. -/
def initCanvasState (s : SysState) : SysState :=
  { s with canvasInit := true, winResize := true, winScroll := true,
           winKeydown := true, intervalActive := true, hostPresent := true }

/-- `cleanup` (src/scan/index.ts lines 476-488): a no-op once
`hasCleanedUp` is set; otherwise set it, call `toggleInspectMode(false)`
and remove the overlay host element. -/
def cleanup (s : SysState) : SysState :=
  if s.hasCleanedUp then s
  else
    let s1 := toggleInspectMode (some false) { s with hasCleanedUp := true }
    { s1 with hostPresent := false }

/-- `stop` (src/scan/index.ts lines 470-473): set the global
`__REACT_SCAN_STOP__` flag, then `cleanup()`. -/
def stop (s : SysState) : SysState :=
  cleanup { s with stopped := true }

/-! ## Concrete sample data used by witnesses and counterexamples -/

/-- A three-node commit tree: node 1 whose child is node 2, node 3 being
node 2's sibling. -/
def sampleTree : FTree := .node 1 (.node 2 .nil (.node 3 .nil .nil)) .nil

/-- An `onRender` callback that throws at node 2 and succeeds elsewhere. -/
def throwAtTwo : Nat → Option String := fun i => if i = 2 then some "boom" else none

/-- An `onRender` callback that never throws. -/
def neverThrow : Nat → Option String := fun _ => none

/-- A composite fiber named `Button` with one nearest host element. -/
def buttonFiber : Fiber := ⟨42, .fnVal (some "Button") none, [7], true⟩

/-- A host fiber (string type), which the aggregator ignores. -/
def hostFiber : Fiber := ⟨1, .strVal "div", [5], false⟩

/-- The initial module state: nothing created, nothing registered. -/
def sysInit : SysState :=
  ⟨false, false, false, false, false, false, false, false, none, false, false, false, []⟩

/-! # Claim theorems -/

/-- C3: for every non-empty list of rectangles, `mergeRects` returns the
minimal axis-aligned bounding rectangle — its left/top edges are lower
bounds of the inputs' left/top edges and are attained by some input, and
its right/bottom edges are upper bounds of the inputs' right/bottom edges
and are attained by some input; in particular
`mergeRects [{0,0,10,10},{5,5,20,20}] = {x:0, y:0, width:25, height:25}`. -/
theorem mergeRects_minimal_bounding (r : Rect) (rs : List Rect) :
    ∃ m, mergeRects (r :: rs) = some m
      ∧ (∀ q ∈ r :: rs,
          m.left ≤ q.left ∧ m.top ≤ q.top ∧ q.right ≤ m.right ∧ q.bottom ≤ m.bottom)
      ∧ (∃ q ∈ r :: rs, m.left = q.left) ∧ (∃ q ∈ r :: rs, m.top = q.top)
      ∧ (∃ q ∈ r :: rs, m.right = q.right) ∧ (∃ q ∈ r :: rs, m.bottom = q.bottom)
      ∧ mergeRects [⟨0, 0, 10, 10⟩, ⟨5, 5, 20, 20⟩] = some ⟨0, 0, 25, 25⟩ := by
  obtain ⟨h1, h2, h3, h4⟩ := mergeRectsCore_tight r rs
  exact ⟨mergeRectsCore r rs, rfl, mergeRectsCore_contains r rs, h1, h2, h3, h4,
    by norm_num [mergeRects, mergeRectsCore, min_def, max_def]⟩

/-- Witness for C3 at the concrete pair of rectangles: the merge result is
`{0,0,25,25}` and it contains the input `{5,5,20,20}`. -/
theorem mergeRects_minimal_bounding_witness :
    ∃ m, mergeRects [⟨0, 0, 10, 10⟩, ⟨5, 5, 20, 20⟩] = some m
      ∧ m.left ≤ (⟨5, 5, 20, 20⟩ : Rect).left
      ∧ m.top ≤ (⟨5, 5, 20, 20⟩ : Rect).top
      ∧ (⟨5, 5, 20, 20⟩ : Rect).right ≤ m.right
      ∧ (⟨5, 5, 20, 20⟩ : Rect).bottom ≤ m.bottom := by
  obtain ⟨m, hmr, hcont, -, -, -, -, -⟩ :=
    mergeRects_minimal_bounding ⟨0, 0, 10, 10⟩ [⟨5, 5, 20, 20⟩]
  obtain ⟨ha, hb, hc, hd⟩ := hcont ⟨5, 5, 20, 20⟩ (by simp)
  exact ⟨m, hmr, ha, hb, hc, hd⟩

/-- C4: `mergeRects` applied to a singleton list returns the rectangle
itself (the `rects.length === 1` short-circuit). -/
theorem mergeRects_singleton (r : Rect) : mergeRects [r] = some r := rfl

/-! Support lemmas for the visitor claims. -/

/-- When no callback throws on the traversed nodes, `mountFiber` visits
exactly the nodes of the (guarded) traversal, in order. -/
theorem mountFiberRun_complete (onR : Nat → Option String) :
    ∀ (t : FTree) (ts : Bool), (mountFiberRun onR t ts).2 = none →
      (mountFiberRun onR t ts).1 = mountFiberVisits t ts := by
  intro t
  induction t with
  | nil => intro ts _; rfl
  | node i c sib ihc ihs =>
    intro ts herr
    cases honR : onR i with
    | some e => simp [mountFiberRun, honR] at herr
    | none =>
      cases hc : mountFiberRun onR c true with
      | mk v1 e1 =>
        cases e1 with
        | some e => simp [mountFiberRun, honR, hc] at herr
        | none =>
          have hv1 : v1 = mountFiberVisits c true := by
            have := ihc true (by rw [hc])
            rwa [hc] at this
          cases ts with
          | false =>
            simp [mountFiberRun, mountFiberVisits, honR, hc, hv1]
          | true =>
            cases hs : mountFiberRun onR sib true with
            | mk v2 e2 =>
              have hv2 : v2 = mountFiberVisits sib true := by
                have h2 : e2 = none := by
                  simp [mountFiberRun, honR, hc, hs] at herr
                  exact herr
                have := ihs true (by rw [hs, h2])
                rwa [hs] at this
              simp [mountFiberRun, mountFiberVisits, honR, hc, hs, hv1, hv2]

/-- Whether a callback throws or not, the visited nodes are an initial
segment (a `take`) of the full traversal order. -/
theorem mountFiberRun_take (onR : Nat → Option String) :
    ∀ (t : FTree) (ts : Bool), ∃ k, k ≤ (mountFiberVisits t ts).length ∧
      (mountFiberRun onR t ts).1 = (mountFiberVisits t ts).take k := by
  intro t
  induction t with
  | nil => intro ts; exact ⟨0, by simp [mountFiberVisits], rfl⟩
  | node i c sib ihc ihs =>
    intro ts
    cases honR : onR i with
    | some e =>
      refine ⟨1, by simp [mountFiberVisits], ?_⟩
      simp [mountFiberRun, mountFiberVisits, honR]
    | none =>
      cases hc : mountFiberRun onR c true with
      | mk v1 e1 =>
        cases e1 with
        | some e =>
          obtain ⟨k1, hk1, hv1⟩ := ihc true
          rw [hc] at hv1
          refine ⟨k1 + 1, by simp [mountFiberVisits]; omega, ?_⟩
          simp only [mountFiberRun, mountFiberVisits, honR, hc, List.take_succ_cons]
          rw [List.take_append_of_le_length hk1]
          exact congrArg (i :: ·) hv1
        | none =>
          have hv1 : v1 = mountFiberVisits c true := by
            have := mountFiberRun_complete onR c true (by rw [hc])
            rwa [hc] at this
          cases ts with
          | false =>
            refine ⟨(mountFiberVisits (.node i c sib) false).length, le_refl _, ?_⟩
            rw [List.take_length]
            simp [mountFiberRun, mountFiberVisits, honR, hc, hv1]
          | true =>
            cases hs : mountFiberRun onR sib true with
            | mk v2 e2 =>
              obtain ⟨k2, hk2, hv2⟩ := ihs true
              rw [hs] at hv2
              have hv2c : v2 = List.take k2 (mountFiberVisits sib true) := hv2
              refine ⟨((mountFiberVisits c true).length + k2) + 1,
                by simp [mountFiberVisits]; omega, ?_⟩
              simp [mountFiberRun, mountFiberVisits, honR, hc, hs, hv1, hv2c,
                List.take_succ_cons, List.take_append]

/-! Dispatch lemmas relating `runVisitor` to the guarded traversal. -/

theorem runVisitor_visited (hasOnError : Bool) (onR : Nat → Option String)
    (root : FiberRoot) :
    (runVisitor hasOnError onR root).visited = (visitorRun onR root).1 := by
  rcases hv : visitorRun onR root with ⟨vs, err⟩
  simp only [runVisitor, hv]
  cases err with
  | none => rfl
  | some e => cases hasOnError <;> rfl

theorem runVisitor_err_some (hasOnError : Bool) (onR : Nat → Option String)
    (root : FiberRoot) (e : String) (h : (visitorRun onR root).2 = some e) :
    (runVisitor hasOnError onR root).forwarded
        = (if hasOnError then some e else none)
    ∧ (runVisitor hasOnError onR root).thrown
        = (if hasOnError then none else some e) := by
  rcases hv : visitorRun onR root with ⟨vs, err⟩
  rw [hv] at h
  simp only at h
  subst h
  simp only [runVisitor, hv]
  cases hasOnError <;> simp

theorem runVisitor_err_none (hasOnError : Bool) (onR : Nat → Option String)
    (root : FiberRoot) (h : (visitorRun onR root).2 = none) :
    (runVisitor hasOnError onR root).forwarded = none
    ∧ (runVisitor hasOnError onR root).thrown = none := by
  rcases hv : visitorRun onR root with ⟨vs, err⟩
  rw [hv] at h
  simp only at h
  subst h
  simp [runVisitor, hv]

theorem visitorRun_fst_take (onR : Nat → Option String) (root : FiberRoot) :
    ∃ k, (visitorRun onR root).1 = (visitorReach root).take k := by
  cases ha : root.alternateIsNull with
  | true => exact ⟨0, by simp [visitorRun, visitorReach, ha]⟩
  | false =>
    obtain ⟨k, _, hk⟩ := mountFiberRun_take onR root.current false
    exact ⟨k, by simpa [visitorRun, visitorReach, ha] using hk⟩

theorem visitorRun_fst_complete (onR : Nat → Option String) (root : FiberRoot)
    (h : (visitorRun onR root).2 = none) :
    (visitorRun onR root).1 = visitorReach root := by
  cases ha : root.alternateIsNull with
  | true => simp [visitorRun, visitorReach, ha]
  | false =>
    have hm := mountFiberRun_complete onR root.current false
      (by simpa [visitorRun, ha] using h)
    simpa [visitorRun, visitorReach, ha] using hm

/-- C1: the claim says the first commit after attach bootstraps the whole
tree through `onRender` and later commits visit only nodes that did work.
The visitor in the source does the opposite: `wasMounted` is
`rootFiber.alternate === null`, and `mountFiber` runs only when
`!wasMounted` — evaluated on a concrete three-node tree, a first commit
(`alternate === null`) invokes `onRender` on no node at all, while every
subsequent commit re-traverses the entire tree (each node exactly once,
labelled `mount`), with no per-node commit-signal filtering. -/
theorem visitor_first_commit_divergence :
    (runVisitor true neverThrow ⟨sampleTree, true⟩).visited = []
    ∧ (runVisitor true neverThrow ⟨sampleTree, false⟩).visited = [1, 2, 3] :=
  ⟨rfl, rfl⟩

/-- C5 counterexample: with an `onError` handler supplied and `onRender`
throwing at node 2 of the three-node commit tree, node 3 — which the
error-free visit reaches — is never visited: the `try` wraps the whole
traversal, so the remaining nodes of the commit are aborted. -/
theorem visitor_abort_counterexample :
    (runVisitor true throwAtTwo ⟨sampleTree, false⟩).visited = [1, 2]
    ∧ (runVisitor true throwAtTwo ⟨sampleTree, false⟩).forwarded = some "boom"
    ∧ 3 ∈ (runVisitor true neverThrow ⟨sampleTree, false⟩).visited
    ∧ 3 ∉ (runVisitor true throwAtTwo ⟨sampleTree, false⟩).visited := by
  decide

/-- C5 (amended): a throwing `onRender` is caught at the visit boundary and
forwarded to `onError` when a handler is supplied (rethrown exactly when it
is not), and the traversal of that commit stops there: the visited nodes
are an initial segment of the full visit order, equal to the whole of it
when no callback throws. -/
theorem visitor_error_boundary (hasOnError : Bool) (onR : Nat → Option String)
    (root : FiberRoot) :
    (∃ k, (runVisitor hasOnError onR root).visited = (visitorReach root).take k)
    ∧ (∀ e, (visitorRun onR root).2 = some e →
        (runVisitor hasOnError onR root).forwarded
            = (if hasOnError then some e else none)
        ∧ (runVisitor hasOnError onR root).thrown
            = (if hasOnError then none else some e))
    ∧ ((visitorRun onR root).2 = none →
        (runVisitor hasOnError onR root).visited = visitorReach root
        ∧ (runVisitor hasOnError onR root).forwarded = none
        ∧ (runVisitor hasOnError onR root).thrown = none) := by
  refine ⟨?_, fun e he => runVisitor_err_some hasOnError onR root e he, fun hn => ⟨?_,
    (runVisitor_err_none hasOnError onR root hn).1,
    (runVisitor_err_none hasOnError onR root hn).2⟩⟩
  · obtain ⟨k, hk⟩ := visitorRun_fst_take onR root
    exact ⟨k, by rw [runVisitor_visited]; exact hk⟩
  · rw [runVisitor_visited]
    exact visitorRun_fst_complete onR root hn

/-- Witness for C5 (amended) at the concrete three-node tree: the error
thrown at node 2 is forwarded when a handler exists, rethrown when none
does, and an error-free visit covers the whole reach. -/
theorem visitor_error_boundary_witness :
    (runVisitor true throwAtTwo ⟨sampleTree, false⟩).forwarded = some "boom"
    ∧ (runVisitor false throwAtTwo ⟨sampleTree, false⟩).thrown = some "boom"
    ∧ (runVisitor true neverThrow ⟨sampleTree, false⟩).visited
        = visitorReach ⟨sampleTree, false⟩ := by
  refine ⟨?_, ?_, ?_⟩
  · have h := (visitor_error_boundary true throwAtTwo ⟨sampleTree, false⟩).2.1
      "boom" (by decide)
    simpa using h.1
  · have h := (visitor_error_boundary false throwAtTwo ⟨sampleTree, false⟩).2.1
      "boom" (by decide)
    simpa using h.2
  · exact ((visitor_error_boundary true neverThrow ⟨sampleTree, false⟩).2.2
      (by decide)).1

/-! Association-list lemmas for the blueprint aggregator. -/

theorem lookupBP_none_countKey (s : AggState) (i : Nat)
    (h : lookupBP s i = none) : countKey s i = 0 := by
  induction s with
  | nil => rfl
  | cons p t ih =>
    obtain ⟨k, b⟩ := p
    by_cases hk : k = i
    · simp [lookupBP, hk] at h
    · simp only [lookupBP, if_neg hk] at h
      simpa [countKey, List.filter, hk] using ih h

theorem lookupBP_append_right (s t : AggState) (i : Nat)
    (h : lookupBP s i = none) : lookupBP (s ++ t) i = lookupBP t i := by
  induction s with
  | nil => rfl
  | cons p u ih =>
    obtain ⟨k, b⟩ := p
    by_cases hk : k = i
    · simp [lookupBP, hk] at h
    · simp only [lookupBP, if_neg hk] at h
      simpa [lookupBP, if_neg hk] using ih h

theorem countKey_append (s t : AggState) (i : Nat) :
    countKey (s ++ t) i = countKey s i + countKey t i := by
  simp [countKey, List.filter_append]

theorem bumpCount_lookup_self (s : AggState) (i : Nat) (b : Blueprint)
    (h : lookupBP s i = some b) :
    lookupBP (bumpCount s i) i = some { b with count := b.count + 1 } := by
  induction s with
  | nil => simp [lookupBP] at h
  | cons p t ih =>
    obtain ⟨k, c⟩ := p
    by_cases hk : k = i
    · simp only [lookupBP, if_pos hk] at h
      obtain rfl : c = b := by injection h
      simp [bumpCount, lookupBP, if_pos hk, hk]
    · simp only [lookupBP, if_neg hk] at h
      simpa [bumpCount, lookupBP, if_neg hk, hk] using ih h

theorem bumpCount_lookup_ne (s : AggState) (i j : Nat) (h : j ≠ i) :
    lookupBP (bumpCount s i) j = lookupBP s j := by
  induction s with
  | nil => rfl
  | cons p t ih =>
    obtain ⟨k, c⟩ := p
    by_cases hk : k = i
    · subst hk
      simp [bumpCount, lookupBP, Ne.symm h]
    · simp [bumpCount, lookupBP, hk, ih]

theorem countKey_bumpCount (s : AggState) (i j : Nat) :
    countKey (bumpCount s i) j = countKey s j := by
  induction s with
  | nil => rfl
  | cons p t ih =>
    obtain ⟨k, c⟩ := p
    simp only [countKey] at ih ⊢
    by_cases hk : k = i
    · rw [show bumpCount ((k, c) :: t) i
          = (k, { c with count := c.count + 1 }) :: t by simp [bumpCount, hk]]
      by_cases hj : k = j <;> simp [List.filter_cons, hj]
    · rw [show bumpCount ((k, c) :: t) i = (k, c) :: bumpCount t i by
          simp [bumpCount, hk]]
      by_cases hj : k = j <;> simp [List.filter_cons, hj, ih]

/-- C2: `outlineFiber` is a no-op on non-composite fibers and on fibers
whose resolved display name is falsy; for a composite, named fiber not yet
in the aggregator, two calls within one flush window leave exactly one
blueprint for that identity, carrying `count = 2` together with the
elements and commit flag captured at creation. -/
theorem outlineFiber_aggregation (f : Fiber) (s : AggState) (nm : String) :
    ((isCompositeFiber f = false ∨ truthyName (outlineName f) = none) →
        outlineFiber f s = s)
    ∧ (isCompositeFiber f = true → truthyName (outlineName f) = some nm →
        lookupBP s f.id = none →
        countKey (outlineFiber f (outlineFiber f s)) f.id = 1
        ∧ lookupBP (outlineFiber f (outlineFiber f s)) f.id
            = some { name := nm, count := 2, elements := f.hostElements,
                     didCommit := if f.committed then 1 else 0 }) := by
  constructor
  · rintro (hc | hn)
    · simp [outlineFiber, hc]
    · by_cases hc : isCompositeFiber f <;> simp [outlineFiber, hc, hn]
  · intro hc hn hnone
    set b1 : Blueprint :=
      { name := nm, count := 1, elements := f.hostElements,
        didCommit := if f.committed then 1 else 0 } with hb1
    have h1 : outlineFiber f s = s ++ [(f.id, b1)] := by
      simp [outlineFiber, hc, hn, hnone, hb1]
    have h2 : lookupBP (s ++ [(f.id, b1)]) f.id = some b1 := by
      rw [lookupBP_append_right s _ _ hnone]
      simp [lookupBP]
    have h3 : outlineFiber f (s ++ [(f.id, b1)]) = bumpCount (s ++ [(f.id, b1)]) f.id := by
      simp [outlineFiber, hc, hn, h2]
    rw [h1, h3]
    refine ⟨?_, ?_⟩
    · rw [countKey_bumpCount, countKey_append, lookupBP_none_countKey s _ hnone]
      simp [countKey, List.filter]
    · rw [bumpCount_lookup_self _ _ _ h2]

/-- Witness for C2: a host fiber leaves the empty aggregator unchanged, and
the composite fiber `Button` rendered twice from the empty aggregator
yields exactly one blueprint with `count = 2`. -/
theorem outlineFiber_aggregation_witness :
    outlineFiber hostFiber [] = []
    ∧ countKey (outlineFiber buttonFiber (outlineFiber buttonFiber [])) buttonFiber.id = 1
    ∧ lookupBP (outlineFiber buttonFiber (outlineFiber buttonFiber [])) buttonFiber.id
        = some { name := "Button", count := 2, elements := buttonFiber.hostElements,
                 didCommit := if buttonFiber.committed then 1 else 0 } := by
  refine ⟨(outlineFiber_aggregation hostFiber [] "").1 (Or.inl (by decide)), ?_, ?_⟩
  · exact ((outlineFiber_aggregation buttonFiber [] "Button").2
      (by decide) (by decide) (by decide)).1
  · exact ((outlineFiber_aggregation buttonFiber [] "Button").2
      (by decide) (by decide) (by decide)).2

/-- C10: a further `outlineFiber` call for a fiber that already has a
blueprint only increments that blueprint's `count` by 1 — its `name`,
`elements` and `didCommit` keep their creation values — and the blueprints
of all other fiber identities are unchanged. -/
theorem outlineFiber_repeat_only_count (f : Fiber) (s : AggState) (b : Blueprint)
    (hc : isCompositeFiber f = true)
    (hn : (truthyName (outlineName f)).isSome = true)
    (hb : lookupBP s f.id = some b) :
    lookupBP (outlineFiber f s) f.id = some { b with count := b.count + 1 }
    ∧ ∀ j, j ≠ f.id → lookupBP (outlineFiber f s) j = lookupBP s j := by
  obtain ⟨nm, hnm⟩ := Option.isSome_iff_exists.mp hn
  have h3 : outlineFiber f s = bumpCount s f.id := by
    simp [outlineFiber, hc, hnm, hb]
  rw [h3]
  exact ⟨bumpCount_lookup_self s f.id b hb,
    fun j hj => bumpCount_lookup_ne s f.id j hj⟩

/-- Witness for C10: after `Button` is recorded once, a repeat call yields
`count = 2` with identical name, elements and commit flag, and an unrelated
identity stays absent. -/
theorem outlineFiber_repeat_only_count_witness :
    lookupBP (outlineFiber buttonFiber (outlineFiber buttonFiber [])) buttonFiber.id
      = some { name := "Button", count := 1 + 1, elements := buttonFiber.hostElements,
               didCommit := 1 }
    ∧ lookupBP (outlineFiber buttonFiber (outlineFiber buttonFiber [])) 5
        = lookupBP (outlineFiber buttonFiber []) 5 := by
  have h := outlineFiber_repeat_only_count buttonFiber (outlineFiber buttonFiber [])
    ⟨"Button", 1, buttonFiber.hostElements, 1⟩ (by decide) (by decide) (by decide)
  exact ⟨h.1, h.2 5 (by decide)⟩

/-- C6 counterexample: after the canvas is initialized, `stop()` leaves the
`resize`/`scroll`/`keydown` window listeners registered, and a pending
animation-frame callback is not cancelled — refuting «stop() unregisters
all event listeners registered by the system and cancels any pending
animation-frame callback». -/
theorem stop_keeps_window_listeners :
    (stop (initCanvasState sysInit)).winResize = true
    ∧ (stop (initCanvasState sysInit)).winScroll = true
    ∧ (stop (initCanvasState sysInit)).winKeydown = true
    ∧ (stop { initCanvasState sysInit with animationFrameId := some 1 }).animationFrameId
        = some 1 := by
  decide

/-- C6 (amended): `stop()` is idempotent — a second call changes nothing
and performs no further work — and it removes the inspect-mode document
listeners, deactivates inspect mode and removes the overlay host; but the
window `resize`/`scroll`/`keydown` listeners, the flush interval and any
pending animation-frame callback are left exactly as they were. -/
theorem stop_idempotent_partial_cleanup (s : SysState)
    (h1 : s.hasCleanedUp = false) (h2 : s.canvasInit = true) :
    stop (stop s) = stop s
    ∧ (stop s).docMouseover = false
    ∧ (stop s).docClick = false
    ∧ (stop s).inspectActive = false
    ∧ (stop s).hostPresent = false
    ∧ (stop s).winResize = s.winResize
    ∧ (stop s).winScroll = s.winScroll
    ∧ (stop s).winKeydown = s.winKeydown
    ∧ (stop s).intervalActive = s.intervalActive
    ∧ (stop s).animationFrameId = s.animationFrameId := by
  simp [stop, cleanup, toggleInspectMode, h1, h2]

/-- Witness for C6 (amended) at the freshly initialized module state. -/
theorem stop_idempotent_partial_cleanup_witness :
    stop (stop (initCanvasState sysInit)) = stop (initCanvasState sysInit)
    ∧ (stop (initCanvasState sysInit)).docMouseover = false
    ∧ (stop (initCanvasState sysInit)).winResize = (initCanvasState sysInit).winResize := by
  have h := stop_idempotent_partial_cleanup (initCanvasState sysInit)
    (by decide) (by decide)
  exact ⟨h.1, h.2.1, h.2.2.2.2.2.1⟩

/-- C7 counterexample: with the canvas initialized,
`toggleInspectMode(true)` followed immediately by `toggleInspectMode(true)`
leaves inspect mode active, not inactive: `isActive = enable ?? !isActive`
honours an explicit argument. -/
theorem toggle_true_twice_stays_active :
    (toggleInspectMode (some true)
      (toggleInspectMode (some true) (initCanvasState sysInit))).inspectActive
      = true := by
  decide

/-- C7 (amended): with the canvas initialized, `toggleInspectMode(true)`
followed by an argument-less `toggleInspectMode()` returns to inactive;
calling with the same explicit `true` twice leaves inspect mode active; and
calling with no argument twice returns `isActive` to its original value. -/
theorem toggleInspectMode_flip_semantics (s : SysState)
    (h : s.canvasInit = true) :
    (toggleInspectMode none (toggleInspectMode (some true) s)).inspectActive = false
    ∧ (toggleInspectMode (some true)
        (toggleInspectMode (some true) s)).inspectActive = true
    ∧ (toggleInspectMode none (toggleInspectMode none s)).inspectActive
        = s.inspectActive := by
  cases ha : s.inspectActive <;> simp [toggleInspectMode, h, ha]

/-- Witness for C7 (amended) at the freshly initialized module state. -/
theorem toggleInspectMode_flip_semantics_witness :
    (toggleInspectMode none
        (toggleInspectMode (some true) (initCanvasState sysInit))).inspectActive = false
    ∧ (toggleInspectMode (some true)
        (toggleInspectMode (some true) (initCanvasState sysInit))).inspectActive = true
    ∧ (toggleInspectMode none
        (toggleInspectMode none (initCanvasState sysInit))).inspectActive
        = (initCanvasState sysInit).inspectActive :=
  toggleInspectMode_flip_semantics (initCanvasState sysInit) (by decide)

/-! Support lemmas for the rect resolver and the flush. -/

theorem mapSet_mem (m : List (Nat × Rect)) (k : Nat) (v : Rect) (e : Nat) (r : Rect)
    (h : (e, r) ∈ mapSet m k v) : (e, r) ∈ m ∨ (e = k ∧ r = v) := by
  induction m with
  | nil =>
    simp [mapSet] at h
    exact Or.inr ⟨h.1, h.2⟩
  | cons p t ih =>
    obtain ⟨k0, v0⟩ := p
    by_cases hk : k0 = k
    · rw [show mapSet ((k0, v0) :: t) k v = (k, v) :: t by simp [mapSet, hk]] at h
      rcases List.mem_cons.mp h with h1 | h1
      · exact Or.inr ⟨congrArg Prod.fst h1, congrArg Prod.snd h1⟩
      · exact Or.inl (List.mem_cons_of_mem _ h1)
    · rw [show mapSet ((k0, v0) :: t) k v = (k0, v0) :: mapSet t k v by
          simp [mapSet, hk]] at h
      rcases List.mem_cons.mp h with h1 | h1
      · exact Or.inl (List.mem_cons.mpr (Or.inl h1))
      · rcases ih h1 with h2 | h2
        · exact Or.inl (List.mem_cons_of_mem _ h2)
        · exact Or.inr h2

theorem getRectMap_mem_aux (observe : Nat → ElemEntry) :
    ∀ (l : List Nat) (m : List (Nat × Rect)) (e : Nat) (r : Rect),
      (e, r) ∈ l.foldl
        (fun m e =>
          let en := observe e
          if en.isIntersecting ∧ en.rect.width ≠ 0 ∧ en.rect.height ≠ 0 then
            mapSet m e en.rect
          else m) m →
      (e, r) ∈ m ∨
        ((observe e).isIntersecting = true ∧ (observe e).rect.width ≠ 0
          ∧ (observe e).rect.height ≠ 0 ∧ r = (observe e).rect) := by
  intro l
  induction l with
  | nil => intro m e r h; exact Or.inl h
  | cons a l ih =>
    intro m e r h
    rw [List.foldl_cons] at h
    rcases ih _ e r h with hm | hcond
    · by_cases hc : (observe a).isIntersecting ∧ (observe a).rect.width ≠ 0
          ∧ (observe a).rect.height ≠ 0
      · rw [if_pos hc] at hm
        rcases mapSet_mem m a (observe a).rect e r hm with h1 | ⟨rfl, hr⟩
        · exact Or.inl h1
        · exact Or.inr ⟨by simp [hc.1], hc.2.1, hc.2.2, hr⟩
      · rw [if_neg hc] at hm
        exact Or.inl hm
    · exact Or.inr hcond

/-- C8: an element appears in `getRectMap`'s result only if its observed
entry intersects the viewport and its rectangle has nonzero width and
height (and the recorded rectangle is that observed rectangle); during the
flush, a blueprint none of whose elements resolved to a rectangle is
dropped (`if (!rects.length) continue;`), and every flushed item comes from
a pending blueprint at least one of whose elements resolved. -/
theorem rectMap_filter_and_flush_drop (observe : Nat → ElemEntry) :
    (∀ (elements : List Nat) (e : Nat) (r : Rect),
        (e, r) ∈ getRectMap observe elements →
        (observe e).isIntersecting = true ∧ (observe e).rect.width ≠ 0
          ∧ (observe e).rect.height ≠ 0 ∧ r = (observe e).rect)
    ∧ (∀ (rectsMap : List (Nat × Rect)) (i : Nat) (b : Blueprint),
        b.elements.filterMap (fun e => mapGet rectsMap e) = [] →
        flushEntry rectsMap i b = none)
    ∧ (∀ (s : AggState) (item : FlushItem), item ∈ flushCollect observe s →
        ∃ p ∈ s,
          flushEntry (getRectMap observe (pendingElements s)) p.1 p.2 = some item
          ∧ p.2.elements.filterMap
              (fun e => mapGet (getRectMap observe (pendingElements s)) e) ≠ []) := by
  refine ⟨?_, ?_, ?_⟩
  · intro elements e r h
    rcases getRectMap_mem_aux observe elements [] e r h with hm | hcond
    · simp at hm
    · exact hcond
  · intro rectsMap i b h
    simp [flushEntry, h]
  · intro s item h
    obtain ⟨p, hp, hfe⟩ := List.mem_filterMap.mp h
    refine ⟨p, hp, hfe, ?_⟩
    intro hempty
    rw [flushEntry, hempty] at hfe
    exact Option.noConfusion hfe

/-- The sample observer: element 7 is visible with rectangle (1,2,3,4);
everything else reports a zero-width, non-intersecting entry. -/
def obsSample : Nat → ElemEntry :=
  fun e => if e = 7 then ⟨true, ⟨1, 2, 3, 4⟩⟩ else ⟨false, ⟨9, 9, 0, 5⟩⟩

/-- A second sample blueprint whose single element (8) never resolves. -/
def boxBlueprint : Blueprint := ⟨"Box", 1, [8], 0⟩

/-- The blueprint created for `buttonFiber` after its first render. -/
def buttonBlueprint : Blueprint := ⟨"Button", 2, [7], 1⟩

/-- Witness for C8: on the sample observer, element 7's recorded rectangle
satisfies the visibility conditions, a blueprint with no resolved element
yields no flush entry, and the flushed item for `Button` traces back to its
pending blueprint. -/
theorem rectMap_filter_and_flush_drop_witness :
    ((obsSample 7).isIntersecting = true ∧ (obsSample 7).rect.width ≠ 0
      ∧ (obsSample 7).rect.height ≠ 0 ∧ (⟨1, 2, 3, 4⟩ : Rect) = (obsSample 7).rect)
    ∧ flushEntry [] 43 boxBlueprint = none
    ∧ (∃ p ∈ [(42, buttonBlueprint), (43, boxBlueprint)],
        flushEntry
          (getRectMap obsSample
            (pendingElements [(42, buttonBlueprint), (43, boxBlueprint)]))
          p.1 p.2 = some ⟨buttonBlueprint, ⟨1, 2, 3, 4⟩, 42⟩
        ∧ p.2.elements.filterMap
            (fun e => mapGet
              (getRectMap obsSample
                (pendingElements [(42, buttonBlueprint), (43, boxBlueprint)])) e)
            ≠ []) := by
  refine ⟨?_, ?_, ?_⟩
  · exact (rectMap_filter_and_flush_drop obsSample).1 [7, 8] 7 ⟨1, 2, 3, 4⟩ (by decide)
  · exact (rectMap_filter_and_flush_drop obsSample).2.1 [] 43 boxBlueprint (by decide)
  · exact (rectMap_filter_and_flush_drop obsSample).2.2
      [(42, buttonBlueprint), (43, boxBlueprint)] ⟨buttonBlueprint, ⟨1, 2, 3, 4⟩, 42⟩
      (by decide)

/-! Support lemmas for the `draw-outlines` buffer layout. -/

theorem flushBuffer_cons (it : FlushItem) (rest : List FlushItem) :
    flushBuffer (it :: rest) = outlineRecord it ++ flushBuffer rest := by
  simp [flushBuffer]

theorem outlineRecord_length (it : FlushItem) :
    (outlineRecord it).length = OUTLINE_ARRAY_SIZE := rfl

theorem flushBuffer_length (items : List FlushItem) :
    (flushBuffer items).length = OUTLINE_ARRAY_SIZE * items.length := by
  induction items with
  | nil => rfl
  | cons it rest ih =>
    rw [flushBuffer_cons, List.length_append, outlineRecord_length, ih,
      List.length_cons, OUTLINE_ARRAY_SIZE]
    ring

theorem flushBuffer_slots (items : List FlushItem) :
    ∀ (i : Nat) (h : i < items.length),
      (flushBuffer items)[OUTLINE_ARRAY_SIZE * i]? = some ((items[i].id : ℚ))
      ∧ (flushBuffer items)[OUTLINE_ARRAY_SIZE * i + 1]? = some ((items[i].bp.count : ℚ))
      ∧ (flushBuffer items)[OUTLINE_ARRAY_SIZE * i + 2]? = some items[i].rect.x
      ∧ (flushBuffer items)[OUTLINE_ARRAY_SIZE * i + 3]? = some items[i].rect.y
      ∧ (flushBuffer items)[OUTLINE_ARRAY_SIZE * i + 4]? = some items[i].rect.width
      ∧ (flushBuffer items)[OUTLINE_ARRAY_SIZE * i + 5]? = some items[i].rect.height
      ∧ (flushBuffer items)[OUTLINE_ARRAY_SIZE * i + 6]? = some ((items[i].bp.didCommit : ℚ)) := by
  induction items with
  | nil => intro i h; simp at h
  | cons it rest ih =>
    intro i h
    cases i with
    | zero =>
      rw [flushBuffer_cons]
      refine ⟨?_, ?_, ?_, ?_, ?_, ?_, ?_⟩ <;>
        simp [OUTLINE_ARRAY_SIZE, outlineRecord, List.getElem?_append]
    | succ n =>
      have hn : n < rest.length := by simpa using h
      have hoff : ∀ j : Nat, OUTLINE_ARRAY_SIZE * (n + 1) + j
          = (outlineRecord it).length + (OUTLINE_ARRAY_SIZE * n + j) := by
        intro j
        rw [outlineRecord_length, OUTLINE_ARRAY_SIZE]
        ring
      have happ : ∀ j : Nat,
          (flushBuffer (it :: rest))[OUTLINE_ARRAY_SIZE * (n + 1) + j]?
            = (flushBuffer rest)[OUTLINE_ARRAY_SIZE * n + j]? := by
        intro j
        rw [flushBuffer_cons, hoff j, List.getElem?_append]
        simp
      obtain ⟨h0, h1, h2, h3, h4, h5, h6⟩ := ih n hn
      have g0 : (flushBuffer (it :: rest))[OUTLINE_ARRAY_SIZE * (n + 1)]?
          = (flushBuffer rest)[OUTLINE_ARRAY_SIZE * n]? := by
        simpa using happ 0
      refine ⟨?_, ?_, ?_, ?_, ?_, ?_, ?_⟩
      · rw [g0]; simp only [List.getElem_cons_succ]; exact h0
      · rw [happ 1]; simp only [List.getElem_cons_succ]; exact h1
      · rw [happ 2]; simp only [List.getElem_cons_succ]; exact h2
      · rw [happ 3]; simp only [List.getElem_cons_succ]; exact h3
      · rw [happ 4]; simp only [List.getElem_cons_succ]; exact h4
      · rw [happ 5]; simp only [List.getElem_cons_succ]; exact h5
      · rw [happ 6]; simp only [List.getElem_cons_succ]; exact h6

/-- C9: the `draw-outlines` message carries a flat float buffer with a
fixed stride of `OUTLINE_ARRAY_SIZE = 7` slots per outline in the order
`[id, count, x, y, width, height, didCommitFlag]` — for the i-th flushed
blueprint, positions `7·i` through `7·i + 6` hold exactly those seven
values — together with a parallel `names` array whose i-th entry is the
i-th outline's name. -/
theorem drawOutlines_buffer_layout (items : List FlushItem) (i : Nat)
    (h : i < items.length) :
    (flushBuffer items).length = OUTLINE_ARRAY_SIZE * items.length
    ∧ (flushBuffer items)[OUTLINE_ARRAY_SIZE * i]? = some ((items[i].id : ℚ))
    ∧ (flushBuffer items)[OUTLINE_ARRAY_SIZE * i + 1]? = some ((items[i].bp.count : ℚ))
    ∧ (flushBuffer items)[OUTLINE_ARRAY_SIZE * i + 2]? = some items[i].rect.x
    ∧ (flushBuffer items)[OUTLINE_ARRAY_SIZE * i + 3]? = some items[i].rect.y
    ∧ (flushBuffer items)[OUTLINE_ARRAY_SIZE * i + 4]? = some items[i].rect.width
    ∧ (flushBuffer items)[OUTLINE_ARRAY_SIZE * i + 5]? = some items[i].rect.height
    ∧ (flushBuffer items)[OUTLINE_ARRAY_SIZE * i + 6]? = some ((items[i].bp.didCommit : ℚ))
    ∧ (flushNames items)[i]? = some items[i].bp.name := by
  obtain ⟨h0, h1, h2, h3, h4, h5, h6⟩ := flushBuffer_slots items i h
  exact ⟨flushBuffer_length items, h0, h1, h2, h3, h4, h5, h6,
    by simp [flushNames, List.getElem?_map, h]⟩

/-- Witness for C9 on a concrete two-outline flush: the slots of outline
index 1 hold its id, count, geometry and commit flag, and `names[1]` is its
name. -/
theorem drawOutlines_buffer_layout_witness :
    (flushBuffer [⟨buttonBlueprint, ⟨1, 2, 3, 4⟩, 42⟩, ⟨boxBlueprint, ⟨5, 6, 7, 8⟩, 43⟩]).length
        = OUTLINE_ARRAY_SIZE * 2
    ∧ (flushBuffer [⟨buttonBlueprint, ⟨1, 2, 3, 4⟩, 42⟩,
        ⟨boxBlueprint, ⟨5, 6, 7, 8⟩, 43⟩])[OUTLINE_ARRAY_SIZE * 1]? = some 43
    ∧ (flushNames [⟨buttonBlueprint, ⟨1, 2, 3, 4⟩, 42⟩,
        ⟨boxBlueprint, ⟨5, 6, 7, 8⟩, 43⟩])[1]? = some "Box" := by
  have h := drawOutlines_buffer_layout
    [⟨buttonBlueprint, ⟨1, 2, 3, 4⟩, 42⟩, ⟨boxBlueprint, ⟨5, 6, 7, 8⟩, 43⟩] 1
    (by decide)
  exact ⟨h.1, h.2.1, h.2.2.2.2.2.2.2.2⟩

end SafeFiber
